import Mathlib

/-!
Verification development for the xspace broadcast-relay server
(embedded Python server in `src/components/ServerSetup.tsx`) and its
TypeScript client (`src/components/TetrisWidget.tsx`).

Shallow embedding conventions:
* byte strings are `List Nat` (one byte / char code per element);
* Python unbounded integers are `Nat`/`Int`;
* JavaScript 32-bit truncation is explicit arithmetic modulo `2 ^ 32`;
* wall-clock instants are `Nat` (seconds) for the watchdog and `ℚ`
  (Python floats, modelled exactly) for the leaderboard;
* fallible external calls are parameters (oracles) supplied to the
  embedded control flow.
-/

namespace XSpace

/-! ## Configuration constants (ServerSetup.tsx lines 554-568) -/

def BUFFER_SECONDS : Nat := 30
def SAMPLE_RATE : Nat := 16000
def CHANNELS : Nat := 1
def SAMPWIDTH : Nat := 2
def BUFFER_SIZE : Nat := SAMPLE_RATE * CHANNELS * SAMPWIDTH * BUFFER_SECONDS
def MAX_HISTORY_ITEMS : Nat := 3000
def CLIENT_SECRET : String := "XSPACE_CLIENT_SECRET_98"
def MAX_PPS : Nat := 1000
def MAX_BROADCAST_DURATION : Nat := 3 * 60 * 60
def SILENCE_TIMEOUT : Nat := 10 * 60

/-! ## Rolling hash, server side (submit_score, lines 969-973)

Python: `expected_hash = ((expected_hash << 5) - expected_hash) + ord(char);
expected_hash = expected_hash & expected_hash`.  Over Python's unbounded
integers `x & x = x`, and the value stays non-negative, so the whole
computation lives in `Nat`.  `h <<< 5` is `h * 2 ^ 5`. -/

def pyStep (h c : Nat) : Nat :=
  let e := (h <<< 5) - h + c
  e &&& e

def pyHashFrom (h : Nat) (l : List Nat) : Nat := l.foldl pyStep h

def pyHash (l : List Nat) : Nat := pyHashFrom 0 l

/-- Unicode code points of a string, as Python `ord` sees them. -/
def strCodes (s : String) : List Nat := s.data.map Char.toNat

/-! ## Decimal rendering (Python `str`, JS `Number.prototype.toString`)

Little-endian digit list computed by repeated division, with explicit
fuel so the definition is structural (the fuel `n` dominates the digit
count of `n`). -/

def decAux : Nat → Nat → List Nat
  | 0, _ => []
  | fuel + 1, n => if n = 0 then [] else n % 10 :: decAux fuel (n / 10)

def decDigits (n : Nat) : List Nat := decAux n n

def digitChar (d : Nat) : Char := Char.ofNat (48 + d)

/-- Decimal rendering of a natural number, as Python's `str`. -/
def natStr (n : Nat) : String :=
  if n = 0 then "0" else ((decDigits n).reverse.map digitChar).asString

/-- Decimal rendering of an integer, as Python's `str` / JS `toString`. -/
def intStr (i : Int) : String :=
  if i < 0 then "-" ++ natStr i.natAbs else natStr i.toNat

/-- The message hashed by both client and server:
`f"{name}{score}{CLIENT_SECRET}"` (server line 969, client line 132). -/
def scoreMsg (name : String) (score : Int) : List Nat :=
  strCodes (name ++ intStr score ++ CLIENT_SECRET)

/-- The signature string the server recomputes: `str(expected_hash)`
(line 975). -/
def expected_signature (name : String) (score : Int) : String :=
  natStr (pyHash (scoreMsg name score))

/-! ## Leaderboard submission (submit_score, lines 966-998) -/

structure ScoreSubmission where
  name : String
  score : Int
  start_time : ℚ
  signature : String
deriving DecidableEq

structure ScoreRow where
  name : String
  score : Int
  timestamp : ℚ
  signature : String
deriving DecidableEq

inductive SubmitResult where
  | ok (db : List ScoreRow)
  | rejected (reason : String)
deriving DecidableEq

/-- The `duration` local of `submit_score` (lines 980-981):
`duration = time.time() - sub.start_time`, clamped to 1 when ≤ 0. -/
def submit_duration (sub : ScoreSubmission) (now : ℚ) : ℚ :=
  if now - sub.start_time ≤ 0 then 1 else now - sub.start_time

/-- The `pps` local of `submit_score` (line 982): `sub.score / duration`. -/
def submit_pps (sub : ScoreSubmission) (now : ℚ) : ℚ :=
  (sub.score : ℚ) / submit_duration sub now

/-- Embedding of `submit_score` (lines 966-998).  `now` is `time.time()`;
`db` is the `scores` table, to which an accepted row is appended. -/
def submit_score (sub : ScoreSubmission) (now : ℚ) (db : List ScoreRow) :
    SubmitResult :=
  if sub.signature ≠ expected_signature sub.name sub.score then
    .rejected "signature_mismatch"
  else if submit_pps sub now > (MAX_PPS : ℚ) ∧ sub.score > 500 then
    .rejected "impossible_speed"
  else
    .ok (db ++ [⟨sub.name, sub.score, now, sub.signature⟩])

/-! ## Client-side hash (TetrisWidget.tsx submitScore, lines 125-145)

JS: `hash = ((hash << 5) - hash) + char; hash = hash & hash`.  In JS,
`<<` and `&` coerce to signed 32-bit integers (`ToInt32`); the
intermediate subtraction and addition are exact. -/

def toInt32 (x : Int) : Int :=
  let r := x.emod 4294967296
  if r < 2147483648 then r else r - 4294967296

def jsStep (h : Int) (c : Nat) : Int :=
  toInt32 (toInt32 (h * 32) - h + (c : Int))

def jsHash (l : List Nat) : Int := l.foldl jsStep 0

/-- The signature string the shipped client sends: `hash.toString()`
over `${nickname}${score}${CLIENT_SECRET}`. -/
def client_signature (nickname : String) (score : Int) : String :=
  intStr (jsHash (strCodes (nickname ++ intStr score ++ CLIENT_SECRET)))

/-! ## Supporting lemmas: the rolling hash -/

lemma land_self (n : Nat) : n &&& n = n := by
  apply Nat.eq_of_testBit_eq
  intro i
  simp [Nat.testBit_and]

lemma pyStep_eq (h c : Nat) : pyStep h c = 31 * h + c := by
  show ((h <<< 5) - h + c) &&& ((h <<< 5) - h + c) = 31 * h + c
  rw [land_self, Nat.shiftLeft_eq]
  have : h * 2 ^ 5 = 32 * h := by ring
  omega

lemma pyHashFrom_append (h : Nat) (xs ys : List Nat) :
    pyHashFrom h (xs ++ ys) = pyHashFrom (pyHashFrom h xs) ys :=
  List.foldl_append ..

lemma pyHashFrom_shift (ys : List Nat) :
    ∀ h : Nat, pyHashFrom h ys = h * 31 ^ ys.length + pyHashFrom 0 ys := by
  induction ys with
  | nil => intro h; simp [pyHashFrom]
  | cons c t ih =>
      intro h
      show pyHashFrom (pyStep h c) t = _
      rw [ih (pyStep h c), pyStep_eq]
      have h2 : pyHashFrom 0 (c :: t) = pyHashFrom (pyStep 0 c) t := rfl
      rw [h2, ih (pyStep 0 c), pyStep_eq]
      simp [List.length_cons, pow_succ]
      ring

lemma pyHashFrom_subst_ne (h0 : Nat) (pre suf : List Nat) (a b : Nat)
    (hab : a ≠ b) :
    pyHashFrom h0 (pre ++ a :: suf) ≠ pyHashFrom h0 (pre ++ b :: suf) := by
  rw [pyHashFrom_append, pyHashFrom_append]
  show pyHashFrom (pyStep (pyHashFrom h0 pre) a) suf
      ≠ pyHashFrom (pyStep (pyHashFrom h0 pre) b) suf
  rw [pyHashFrom_shift suf (pyStep (pyHashFrom h0 pre) a),
    pyHashFrom_shift suf (pyStep (pyHashFrom h0 pre) b), pyStep_eq, pyStep_eq]
  have hpow : 0 < 31 ^ suf.length := Nat.pos_pow_of_pos _ (by norm_num)
  intro heq
  have hmul : (31 * pyHashFrom h0 pre + a) * 31 ^ suf.length
      = (31 * pyHashFrom h0 pre + b) * 31 ^ suf.length := by omega
  have := Nat.eq_of_mul_eq_mul_right hpow hmul
  omega

/-! ## Supporting lemmas: decimal rendering is injective -/

/-- Little-endian decimal reassembly, inverse of `decAux`. -/
def ofDec (l : List Nat) : Nat := l.foldr (fun d acc => d + 10 * acc) 0

lemma decAux_sound : ∀ fuel n : Nat, n ≤ fuel → ofDec (decAux fuel n) = n := by
  intro fuel
  induction fuel with
  | zero =>
      intro n hn
      have : n = 0 := Nat.le_zero.mp hn
      simp [this, decAux, ofDec]
  | succ f ih =>
      intro n hn
      by_cases h0 : n = 0
      · simp [h0, decAux, ofDec]
      · have hdiv : n / 10 ≤ f := by
          have : n / 10 < n := Nat.div_lt_self (Nat.pos_of_ne_zero h0) (by norm_num)
          omega
        rw [decAux, if_neg h0]
        have hstep : ofDec (n % 10 :: decAux f (n / 10))
            = n % 10 + 10 * ofDec (decAux f (n / 10)) := rfl
        rw [hstep, ih (n / 10) hdiv]
        omega

lemma decDigits_sound (n : Nat) : ofDec (decDigits n) = n :=
  decAux_sound n n le_rfl

lemma decDigits_inj {m n : Nat} (h : decDigits m = decDigits n) : m = n := by
  have := decDigits_sound m
  rw [h, decDigits_sound] at this
  omega

lemma decAux_lt_ten : ∀ fuel n : Nat, ∀ d ∈ decAux fuel n, d < 10 := by
  intro fuel
  induction fuel with
  | zero => intro n d hd; simp [decAux] at hd
  | succ f ih =>
      intro n d hd
      by_cases h0 : n = 0
      · simp [h0, decAux] at hd
      · rw [decAux, if_neg h0] at hd
        rcases List.mem_cons.mp hd with h | h
        · subst h; exact Nat.mod_lt _ (by norm_num)
        · exact ih (n / 10) d h

lemma digitChar_inj :
    ∀ d1 < 10, ∀ d2 < 10, digitChar d1 = digitChar d2 → d1 = d2 := by decide

lemma map_digitChar_inj :
    ∀ l1 l2 : List Nat, (∀ d ∈ l1, d < 10) → (∀ d ∈ l2, d < 10) →
      l1.map digitChar = l2.map digitChar → l1 = l2 := by
  intro l1
  induction l1 with
  | nil => intro l2 _ _ h; cases l2 <;> simp_all
  | cons a t ih =>
      intro l2 h1 h2 h
      cases l2 with
      | nil => simp at h
      | cons b u =>
          simp only [List.map_cons, List.cons.injEq] at h
          have ha : a = b :=
            digitChar_inj a (h1 a (by simp)) b (h2 b (by simp)) h.1
          have ht : t = u :=
            ih u (fun d hd => h1 d (by simp [hd])) (fun d hd => h2 d (by simp [hd])) h.2
          rw [ha, ht]

lemma asString_inj {l1 l2 : List Char} (h : l1.asString = l2.asString) :
    l1 = l2 :=
  String.ext_iff.mp h

lemma natStr_inj {m n : Nat} (h : natStr m = natStr n) : m = n := by
  by_cases hm : m = 0 <;> by_cases hn : n = 0
  · omega
  · exfalso
    rw [natStr, if_pos hm, natStr, if_neg hn] at h
    have hd : (['0'] : List Char) = (decDigits n).reverse.map digitChar :=
      asString_inj h
    have h0 : ([0] : List Nat).map digitChar = (decDigits n).reverse.map digitChar := by
      simpa [digitChar] using hd
    have : ([0] : List Nat) = (decDigits n).reverse :=
      map_digitChar_inj _ _ (by intro d hd'; simp at hd'; omega)
        (fun d hd' => decAux_lt_ten n n d (by simpa using hd')) h0
    have hrev : decDigits n = [0] := by
      have := congrArg List.reverse this
      simpa using this.symm
    have := decDigits_sound n
    rw [hrev] at this
    simp [ofDec] at this
    exact hn this.symm
  · exfalso
    rw [natStr, if_neg hm, natStr, if_pos hn] at h
    have hd : (decDigits m).reverse.map digitChar = (['0'] : List Char) :=
      asString_inj h
    have h0 : (decDigits m).reverse.map digitChar = ([0] : List Nat).map digitChar := by
      simpa [digitChar] using hd
    have : (decDigits m).reverse = ([0] : List Nat) :=
      map_digitChar_inj _ _
        (fun d hd' => decAux_lt_ten m m d (by simpa using hd'))
        (by intro d hd'; simp at hd'; omega) h0
    have hrev : decDigits m = [0] := by
      have := congrArg List.reverse this
      simpa using this
    have := decDigits_sound m
    rw [hrev] at this
    simp [ofDec] at this
    exact hm this.symm
  · rw [natStr, if_neg hm, natStr, if_neg hn] at h
    have hdata := asString_inj h
    have hlt1 : ∀ d ∈ (decDigits m).reverse, d < 10 :=
      fun d hd => decAux_lt_ten m m d (by simpa using hd)
    have hlt2 : ∀ d ∈ (decDigits n).reverse, d < 10 :=
      fun d hd => decAux_lt_ten n n d (by simpa using hd)
    have hrev := map_digitChar_inj _ _ hlt1 hlt2 hdata
    have : decDigits m = decDigits n := by
      have := congrArg List.reverse hrev
      simpa using this
    exact decDigits_inj this

lemma strCodes_append (a b : String) : strCodes (a ++ b) = strCodes a ++ strCodes b := by
  simp [strCodes]

lemma char_toNat_ne {c c' : Char} (h : c ≠ c') : c.toNat ≠ c'.toNat :=
  fun he => h (Char.ext (UInt32.ext he))

/-- The hashed message when the name is split around one character:
`scoreMsg` of `pre ++ c :: suf` exposes `c.toNat` at a single position. -/
lemma scoreMsg_split (pre suf : List Char) (c : Char) (score : Int) :
    scoreMsg ⟨pre ++ c :: suf⟩ score
      = pre.map Char.toNat
          ++ c.toNat ::
            (suf.map Char.toNat ++ strCodes (intStr score) ++ strCodes CLIENT_SECRET) := by
  show strCodes ((⟨pre ++ c :: suf⟩ : String) ++ intStr score ++ CLIENT_SECRET) = _
  rw [strCodes_append, strCodes_append]
  show (pre ++ c :: suf).map Char.toNat ++ _ ++ _ = _
  simp [List.map_append, List.append_assoc]

/-- C8: a submission passes the server's signature gate iff its
`signature` field equals `str` of the rolling hash of
`name + str(score) + CLIENT_SECRET` computed by iterating
`h := (h << 5) - h + ord(char)` from `h = 0` over Python's unbounded
integers (`submit_score`, ServerSetup.tsx lines 966-977); and a valid
signature is invalidated by substituting any single character of the
hashed message — in particular any single character of the name (third
conjunct) or of the decimal rendering of the score, both of which are
contiguous slices of that message (second conjunct). -/
theorem submit_score_signature_gate :
    (∀ (sub : ScoreSubmission) (now : ℚ) (db : List ScoreRow),
        submit_score sub now db = SubmitResult.rejected "signature_mismatch"
          ↔ sub.signature ≠ expected_signature sub.name sub.score)
    ∧ (∀ (pre suf : List Nat) (a b : Nat), a ≠ b →
        ∀ sig : String, sig = natStr (pyHash (pre ++ a :: suf)) →
          sig ≠ natStr (pyHash (pre ++ b :: suf)))
    ∧ (∀ (pre suf : List Char) (c c' : Char) (score : Int), c ≠ c' →
        ∀ sig : String, sig = expected_signature ⟨pre ++ c :: suf⟩ score →
          sig ≠ expected_signature ⟨pre ++ c' :: suf⟩ score) := by
  refine ⟨?_, ?_, ?_⟩
  · intro sub now db
    rw [submit_score]
    by_cases hs : sub.signature = expected_signature sub.name sub.score
    · rw [if_neg (by simp [hs])]
      constructor
      · intro hq
        exfalso
        split at hq
        · exact absurd hq (by decide)
        · exact SubmitResult.noConfusion hq
      · intro hq
        exact absurd hs hq
    · rw [if_pos hs]
      simp [hs]
  · intro pre suf a b hab sig hsig
    rw [hsig]
    intro heq
    exact pyHashFrom_subst_ne 0 pre suf a b hab (natStr_inj heq)
  · intro pre suf c c' score hcc sig hsig
    rw [hsig]
    show expected_signature ⟨pre ++ c :: suf⟩ score
        ≠ expected_signature ⟨pre ++ c' :: suf⟩ score
    rw [expected_signature, expected_signature, scoreMsg_split, scoreMsg_split]
    intro heq
    exact pyHashFrom_subst_ne 0 (pre.map Char.toNat) _ c.toNat c'.toNat
      (char_toNat_ne hcc) (natStr_inj heq)

/-- Witness for `submit_score_signature_gate` at concrete inputs: a bogus
signature is rejected as a mismatch, and the valid signature for
("AAA", 500) differs from the one for ("AAB", 500). -/
theorem submit_score_signature_gate_witness :
    (submit_score ⟨"AAA", 500, 0, "bogus"⟩ 1 []
        = SubmitResult.rejected "signature_mismatch"
      ↔ "bogus" ≠ expected_signature "AAA" 500)
    ∧ expected_signature "AAA" 500 ≠ expected_signature "AAB" 500 := by
  constructor
  · exact submit_score_signature_gate.1 ⟨"AAA", 500, 0, "bogus"⟩ 1 []
  · exact submit_score_signature_gate.2.2 ['A', 'A'] [] 'A' 'B' 500 (by decide)
      (expected_signature ⟨['A', 'A'] ++ 'A' :: []⟩ 500) rfl

/-- C9: a validly signed submission of 100000 points one second after
`start_time` is rejected as "impossible_speed"; a validly signed
submission of 50 points sixty seconds after `start_time` is accepted and
appended to the score table; and the speed check never fires for scores
at or below the 500-point floor (`submit_score`, lines 979-995). -/
theorem submit_score_plausibility :
    submit_score ⟨"AAA", 100000, 99, expected_signature "AAA" 100000⟩ 100 []
      = SubmitResult.rejected "impossible_speed"
    ∧ submit_score ⟨"AAA", 50, 40, expected_signature "AAA" 50⟩ 100 []
      = SubmitResult.ok [⟨"AAA", 50, 100, expected_signature "AAA" 50⟩]
    ∧ (∀ (sub : ScoreSubmission) (now : ℚ) (db : List ScoreRow),
        sub.score ≤ 500 →
        submit_score sub now db ≠ SubmitResult.rejected "impossible_speed") := by
  refine ⟨?_, ?_, ?_⟩
  · have hcond : submit_pps ⟨"AAA", 100000, 99, expected_signature "AAA" 100000⟩ 100
          > (MAX_PPS : ℚ)
        ∧ ((⟨"AAA", 100000, 99, expected_signature "AAA" 100000⟩ :
            ScoreSubmission).score > 500) := by
      constructor
      · norm_num [submit_pps, submit_duration, MAX_PPS]
      · norm_num
    rw [submit_score, if_neg (by simp), if_pos hcond]
  · have hcond : ¬ (submit_pps ⟨"AAA", 50, 40, expected_signature "AAA" 50⟩ 100
          > (MAX_PPS : ℚ)
        ∧ ((⟨"AAA", 50, 40, expected_signature "AAA" 50⟩ :
            ScoreSubmission).score > 500)) := by
      norm_num
    rw [submit_score, if_neg (by simp), if_neg hcond]
    rfl
  · intro sub now db hle hcontra
    rw [submit_score] at hcontra
    split at hcontra
    · exact absurd hcontra (by decide)
    · split at hcontra
      · next hcond => exact absurd hcond.2 (by omega)
      · exact SubmitResult.noConfusion hcontra

/-- Witness for `submit_score_plausibility`: a low score is never
rejected for speed. -/
theorem submit_score_plausibility_witness :
    submit_score ⟨"BBB", 0, 0, "x"⟩ 1 [] ≠ SubmitResult.rejected "impossible_speed" :=
  submit_score_plausibility.2.2 ⟨"BBB", 0, 0, "x"⟩ 1 [] (by decide)

set_option maxRecDepth 100000 in
/-- C10 (code bug evidence): the shipped client's signature for
("AAA", 500) — the rolling hash truncated to a signed 32-bit integer at
every step by JavaScript's `hash = hash & hash` — differs from the
signature the server recomputes, because on Python's unbounded integers
`expected_hash & expected_hash` is the identity (the `# 32bit int`
comment notwithstanding), so the server rejects the client's own
submission with "signature_mismatch". -/
theorem client_signature_rejected_by_server :
    client_signature "AAA" 500 ≠ expected_signature "AAA" 500
    ∧ submit_score ⟨"AAA", 500, 0, client_signature "AAA" 500⟩ 1 []
        = SubmitResult.rejected "signature_mismatch" := by
  have hne : client_signature "AAA" 500 ≠ expected_signature "AAA" 500 := by
    decide
  exact ⟨hne, by rw [submit_score, if_pos hne]⟩

/-! ## ConnectionManager (ServerSetup.tsx lines 674-762)

A listener connection is a pair (websocket handle, target language);
the registry `active_connections` is the list of such pairs.  Send
failures are a parameter `fails` telling which handles raise on send. -/

/-- One entry of `manager.history` (`add_history`, lines 710-725). -/
structure HistEntry where
  original : String
  translations : List (String × String)
  timestamp : Nat
deriving DecidableEq

/-- `get_needed_languages` (lines 694-695): the distinct set of the
registered listeners' languages. -/
def get_needed_languages (conns : List (Nat × String)) : List String :=
  (conns.map Prod.snd).dedup

/-- `add_history` (lines 710-719): pop the oldest entry if the count
exceeds `MAX_HISTORY_ITEMS`, then append the new entry. -/
def add_history (history : List HistEntry) (e : HistEntry) : List HistEntry :=
  if MAX_HISTORY_ITEMS < history.length then history.drop 1 ++ [e]
  else history ++ [e]

/-- History states reachable through `clear_history` (empty) and
`add_history`. -/
inductive ReachableHistory : List HistEntry → Prop
  | empty : ReachableHistory []
  | add (h : List HistEntry) (e : HistEntry) :
      ReachableHistory h → ReachableHistory (add_history h e)

/-- The `text_to_send` value computed per listener in `broadcast_result`
(lines 735-739): original for English, the cached translation when the
language is a key of `translations`, the empty string otherwise. -/
def select_text (original : String) (translations : List (String × String))
    (lang : String) : String :=
  if lang = "English" then original
  else
    match List.lookup lang translations with
    | some t => t
    | none => ""

structure BroadcastOutcome where
  messages : List (Nat × String)
  remaining : List (Nat × String)
  statsReEmitted : Bool
deriving DecidableEq

/-- `broadcast_result` (lines 731-755): attempt delivery of the selected
text to every live connection whenever that text is non-empty (Python
truthiness `if text_to_send:`); connections whose send raises are
collected and pruned after the full pass, and a stats update is
re-emitted iff some connection was pruned.  `messages` are the
deliveries that did not raise. -/
def broadcast_result (conns : List (Nat × String)) (fails : Nat → Bool)
    (original : String) (translations : List (String × String)) :
    BroadcastOutcome :=
  let disconnected := conns.filterMap (fun c =>
    let t := select_text original translations c.2
    if t ≠ "" ∧ fails c.1 = true then some c.1 else none)
  { messages := conns.filterMap (fun c =>
      let t := select_text original translations c.2
      if t ≠ "" ∧ fails c.1 = false then some (c.1, t) else none)
    remaining := conns.filter (fun c => !(disconnected.contains c.1))
    statsReEmitted := !disconnected.isEmpty }

/-! ### C7: history bound -/

lemma add_history_length (h : List HistEntry) (e : HistEntry) :
    (add_history h e).length
      = if MAX_HISTORY_ITEMS < h.length then h.length else h.length + 1 := by
  rw [add_history]
  split
  · next hgt => simp; omega
  · simp

def dummyEntry : HistEntry := ⟨"x", [], 0⟩

lemma iterate_add_history_length (n : Nat) :
    ((fun h => add_history h dummyEntry)^[n] []).length
      = min n (MAX_HISTORY_ITEMS + 1) := by
  induction n with
  | zero => simp
  | succ k ih =>
      rw [Function.iterate_succ_apply', add_history_length, ih]
      have : MAX_HISTORY_ITEMS = 3000 := rfl
      split <;> omega

lemma iterate_add_history_reachable (n : Nat) :
    ReachableHistory ((fun h => add_history h dummyEntry)^[n] []) := by
  induction n with
  | zero => exact ReachableHistory.empty
  | succ k ih =>
      rw [Function.iterate_succ_apply']
      exact ReachableHistory.add _ _ ih

/-- C7 counterexample: after 3001 appends from an empty history, the
reachable history holds `MAX_HISTORY_ITEMS + 1 = 3001` entries — the
eviction in `add_history` fires only once the count already exceeds the
maximum, so the claimed bound `length ≤ MAX_HISTORY_ITEMS` fails. -/
theorem add_history_exceeds_max :
    ReachableHistory ((fun h => add_history h dummyEntry)^[MAX_HISTORY_ITEMS + 1] [])
    ∧ ((fun h => add_history h dummyEntry)^[MAX_HISTORY_ITEMS + 1] []).length
        = MAX_HISTORY_ITEMS + 1
    ∧ MAX_HISTORY_ITEMS < MAX_HISTORY_ITEMS + 1 := by
  refine ⟨iterate_add_history_reachable _, ?_, by omega⟩
  rw [iterate_add_history_length]
  omega

/-- C7 amended: `add_history` evicts the oldest entry (and only then)
once the count exceeds `MAX_HISTORY_ITEMS` before appending, so every
reachable history has length at most `MAX_HISTORY_ITEMS + 1` (3001), not
`MAX_HISTORY_ITEMS` as claimed. -/
theorem add_history_bound :
    (∀ h : List HistEntry, ReachableHistory h →
      h.length ≤ MAX_HISTORY_ITEMS + 1)
    ∧ (∀ (h : List HistEntry) (e : HistEntry), MAX_HISTORY_ITEMS < h.length →
        add_history h e = h.drop 1 ++ [e])
    ∧ (∀ (h : List HistEntry) (e : HistEntry), h.length ≤ MAX_HISTORY_ITEMS →
        add_history h e = h ++ [e]) := by
  refine ⟨?_, ?_, ?_⟩
  · intro h hr
    induction hr with
    | empty => simp
    | add h' e _ ih =>
        rw [add_history_length]
        split <;> omega
  · intro h e hgt
    rw [add_history, if_pos hgt]
  · intro h e hle
    rw [add_history, if_neg (by omega)]

/-- Witness for `add_history_bound` at concrete inputs. -/
theorem add_history_bound_witness :
    ([] : List HistEntry).length ≤ MAX_HISTORY_ITEMS + 1
    ∧ add_history [] dummyEntry = [] ++ [dummyEntry] :=
  ⟨add_history_bound.1 [] ReachableHistory.empty,
   add_history_bound.2.2 [] dummyEntry (by decide)⟩

/-! ### C2: broadcast routing -/

/-- C2 counterexample: a connected English listener whose send would
succeed receives nothing when the original text is empty — the
`if text_to_send:` truthiness check skips empty strings, so the claim
"every English listener is sent the original text" fails at
`original = ""`. -/
theorem broadcast_result_empty_original_sends_nothing :
    (broadcast_result [(0, "English")] (fun _ => false) "" []).messages = [] := by
  rfl

/-- C2 amended: in `broadcast_result(original, translations)`, every
connected listener whose send does not raise is sent: the original text
if its language is English and the original is non-empty; the cached
translation for its language if that is a key of `translations` and the
cached text is non-empty; and nothing otherwise (in particular nothing
when its language is neither English nor a key of `translations`). -/
theorem broadcast_result_routing :
    ∀ (conns : List (Nat × String)) (fails : Nat → Bool) (original : String)
      (translations : List (String × String)) (ws : Nat) (lang : String),
      (ws, lang) ∈ conns → fails ws = false →
      ((lang = "English" → original ≠ "" →
          (ws, original) ∈ (broadcast_result conns fails original translations).messages)
      ∧ (∀ t : String, lang ≠ "English" →
          List.lookup lang translations = some t → t ≠ "" →
          (ws, t) ∈ (broadcast_result conns fails original translations).messages)
      ∧ (lang ≠ "English" → List.lookup lang translations = none →
          (∀ l' : String, (ws, l') ∈ conns → l' = lang) →
          ∀ p : String, (ws, p) ∉ (broadcast_result conns fails original translations).messages)) := by
  intro conns fails original translations ws lang hmem hok
  refine ⟨?_, ?_, ?_⟩
  · intro heng horig
    apply List.mem_filterMap.mpr
    refine ⟨(ws, lang), hmem, ?_⟩
    have hsel : select_text original translations lang = original := by
      rw [select_text, if_pos heng]
    simp only [hsel]
    rw [if_pos ⟨horig, hok⟩]
  · intro t hneng hlook ht
    apply List.mem_filterMap.mpr
    refine ⟨(ws, lang), hmem, ?_⟩
    have hsel : select_text original translations lang = t := by
      rw [select_text, if_neg hneng, hlook]
    simp only [hsel]
    rw [if_pos ⟨ht, hok⟩]
  · intro hneng hlook huniq p hp
    rcases List.mem_filterMap.mp hp with ⟨⟨ws', l'⟩, hmem', hf⟩
    by_cases hws : ws' = ws
    · subst hws
      have hl : l' = lang := huniq l' hmem'
      subst hl
      have hsel : select_text original translations l' = "" := by
        rw [select_text, if_neg hneng, hlook]
      simp only [hsel] at hf
      rw [if_neg (by simp)] at hf
      exact Option.noConfusion hf
    · by_cases hc : select_text original translations l' ≠ "" ∧ fails ws' = false
      · rw [if_pos hc] at hf
        have : ws' = ws := congrArg Prod.fst (Option.some.inj hf)
        exact hws this
      · rw [if_neg hc] at hf
        exact Option.noConfusion hf

/-- Witness for `broadcast_result_routing` at a concrete registry. -/
theorem broadcast_result_routing_witness :
    ("hi", 0) = ("hi", 0)
    ∧ (0, "hi") ∈ (broadcast_result [(0, "English")] (fun _ => false) "hi" []).messages := by
  refine ⟨rfl, ?_⟩
  exact (broadcast_result_routing [(0, "English")] (fun _ => false) "hi" [] 0 "English"
    (by decide) rfl).1 rfl (by decide)

/-! ### C3: translation fan requests -/

/-- The `target_langs` list built by `transcribe_and_distribute`
(lines 921-934): empty unless the stripped transcript is non-empty and
longer than 5 characters, else the registry's distinct language set at
fan-dispatch time minus the pass-through language "English"; exactly one
translation task is created per element. -/
def segment_requests (conns : List (Nat × String)) (text : String) :
    List String :=
  if text ≠ "" ∧ 5 < text.length then
    (get_needed_languages conns).filter (fun l => l != "English")
  else []

/-- C3: for a transcript passing the length filter, the translation fan
issues exactly one request per distinct language of the registry at
dispatch time, excluding "English": the request list has no duplicates
and contains a language iff some currently connected listener registered
it (never a language with zero current listeners).  The registry is an
argument consulted afresh at each dispatch, never cached. -/
theorem segment_requests_spec :
    ∀ (conns : List (Nat × String)) (text : String),
      text ≠ "" ∧ 5 < text.length →
      (segment_requests conns text).Nodup
      ∧ ∀ lang : String,
          lang ∈ segment_requests conns text
            ↔ (lang ≠ "English" ∧ lang ∈ conns.map Prod.snd) := by
  intro conns text hfilter
  rw [segment_requests, if_pos hfilter]
  constructor
  · exact List.Nodup.filter _ (List.nodup_dedup _)
  · intro lang
    rw [List.mem_filter, get_needed_languages, List.mem_dedup]
    constructor
    · intro ⟨h1, h2⟩
      exact ⟨by simpa using h2, h1⟩
    · intro ⟨h1, h2⟩
      exact ⟨h2, by simpa using h1⟩

/-- Witness for `segment_requests_spec` at a concrete registry: two
French listeners and one English listener yield exactly the request
"French". -/
theorem segment_requests_spec_witness :
    (segment_requests [(0, "French"), (1, "French"), (2, "English")] "hello world").Nodup
    ∧ ("French" ∈ segment_requests [(0, "French"), (1, "French"), (2, "English")] "hello world"
        ↔ ("French" ≠ "English"
            ∧ "French" ∈ [(0, "French"), (1, "French"), (2, "English")].map Prod.snd)) :=
  ⟨(segment_requests_spec [(0, "French"), (1, "French"), (2, "English")] "hello world"
      (by decide)).1,
   (segment_requests_spec [(0, "French"), (1, "French"), (2, "English")] "hello world"
      (by decide)).2 "French"⟩

/-! ## translate_text and key rotation (ServerSetup.tsx lines 641-672)

The outcome of each upstream chat call is an oracle indexed by attempt
number: a successful translation, a `RateLimitError`, or any other
exception. -/

inductive TrOutcome where
  | success (s : String)
  | rateLimit
  | failure
deriving DecidableEq

structure TrResult where
  result : String
  attempts : Nat
  keysUsed : List Nat
deriving DecidableEq

/-- `rotate_key` (lines 641-648): advance `CURRENT_KEY_INDEX` round-robin
when more than one client is configured, otherwise leave it (and sleep). -/
def rotate_key (n idx : Nat) : Nat := if 1 < n then (idx + 1) % n else idx

/-- The `for attempt in range(len(clients) + 1)` loop of `translate_text`
(lines 653-672), structural in the remaining iteration count `fuel`:
each iteration calls the client at the current key index; a success
returns its text, a non-rate-limit exception returns the original text,
a `RateLimitError` rotates the key and continues; a completed loop
falls through to `return text`. -/
def translateLoop (oracle : Nat → TrOutcome) (n : Nat) (text : String) :
    Nat → Nat → Nat → TrResult
  | 0, _, _ => ⟨text, 0, []⟩
  | fuel + 1, idx, attemptNo =>
    match oracle attemptNo with
    | .success s => ⟨s, 1, [idx]⟩
    | .failure => ⟨text, 1, [idx]⟩
    | .rateLimit =>
        let r := translateLoop oracle n text fuel (rotate_key n idx) (attemptNo + 1)
        ⟨r.result, r.attempts + 1, idx :: r.keysUsed⟩

/-- `translate_text` (lines 650-672): the pass-through language returns
its input with no request at all; otherwise the retry loop runs with
`len(clients) + 1` iterations starting from the current key index. -/
def translate_text (text lang : String) (n idx0 : Nat)
    (oracle : Nat → TrOutcome) : TrResult :=
  if lang = "English" then ⟨text, 0, []⟩
  else translateLoop oracle n text (n + 1) idx0 0

lemma rotate_key_lt {n idx : Nat} (h : idx < n) : rotate_key n idx < n := by
  rw [rotate_key]
  split
  · exact Nat.mod_lt _ (by omega)
  · exact h

lemma rotate_key_formula {n idx : Nat} (h : idx < n) :
    rotate_key n idx = (idx + 1) % n := by
  rw [rotate_key]
  split
  · rfl
  · next h1 =>
      have hn : n = 1 := by omega
      subst hn
      omega

lemma translateLoop_spec (oracle : Nat → TrOutcome) (n : Nat) (text : String) :
    ∀ fuel idx a,
      (translateLoop oracle n text fuel idx a).attempts ≤ fuel
      ∧ (translateLoop oracle n text fuel idx a).keysUsed.length
          = (translateLoop oracle n text fuel idx a).attempts
      ∧ ((translateLoop oracle n text fuel idx a).result = text
          ∨ ∃ j, j < (translateLoop oracle n text fuel idx a).attempts
              ∧ oracle (a + j)
                  = TrOutcome.success (translateLoop oracle n text fuel idx a).result)
      ∧ (∀ j, j + 1 < (translateLoop oracle n text fuel idx a).attempts →
          oracle (a + j) = TrOutcome.rateLimit)
      ∧ ((translateLoop oracle n text fuel idx a).keysUsed ≠ [] →
          (translateLoop oracle n text fuel idx a).keysUsed.getD 0 0 = idx)
      ∧ (∀ j, j + 1 < (translateLoop oracle n text fuel idx a).keysUsed.length →
          (translateLoop oracle n text fuel idx a).keysUsed.getD (j + 1) 0
            = rotate_key n ((translateLoop oracle n text fuel idx a).keysUsed.getD j 0))
      ∧ (idx < n → ∀ k ∈ (translateLoop oracle n text fuel idx a).keysUsed, k < n) := by
  intro fuel
  induction fuel with
  | zero =>
      intro idx a
      refine ⟨by simp [translateLoop], by simp [translateLoop], ?_, ?_, ?_, ?_, ?_⟩
      · left; rfl
      · intro j hj; simp [translateLoop] at hj
      · intro hne; simp [translateLoop] at hne
      · intro j hj; simp [translateLoop] at hj
      · intro _ k hk; simp [translateLoop] at hk
  | succ f ih =>
      intro idx a
      show _ ∧ _ ∧ _ ∧ _ ∧ _ ∧ _ ∧ _
      rw [translateLoop]
      cases horacle : oracle a with
      | success s =>
          dsimp only
          refine ⟨by omega, rfl, ?_, ?_, fun _ => rfl, ?_, ?_⟩
          · right; exact ⟨0, by omega, by simpa using horacle⟩
          · intro j hj; omega
          · intro j hj; simp at hj
          · intro hidx k hk
            simp at hk
            omega
      | failure =>
          dsimp only
          refine ⟨by omega, rfl, Or.inl rfl, ?_, fun _ => rfl, ?_, ?_⟩
          · intro j hj; omega
          · intro j hj; simp at hj
          · intro hidx k hk
            simp at hk
            omega
      | rateLimit =>
          dsimp only
          obtain ⟨ih1, ih2, ih3, ih4, ih5, ih6, ih7⟩ := ih (rotate_key n idx) (a + 1)
          refine ⟨by simpa using ih1, by simpa using ih2, ?_, ?_, fun _ => rfl, ?_, ?_⟩
          · rcases ih3 with h | ⟨j, hj, hsucc⟩
            · left; exact h
            · right
              refine ⟨j + 1, by simpa using hj, ?_⟩
              have : a + (j + 1) = a + 1 + j := by omega
              rw [this]
              exact hsucc
          · intro j hj
            cases j with
            | zero => exact horacle
            | succ j' =>
                have : a + (j' + 1) = a + 1 + j' := by omega
                rw [this]
                exact ih4 j' (by simp at hj; omega)
          · intro j hj
            cases j with
            | zero =>
                simp only [List.getD_cons_succ, List.getD_cons_zero]
                apply ih5
                intro hempty
                simp [hempty] at hj
            | succ j' =>
                simp only [List.getD_cons_succ]
                exact ih6 j' (by simpa using hj)
          · intro hidx k hk
            simp at hk
            rcases hk with h | h
            · omega
            · exact ih7 (rotate_key_lt hidx) k h

/-- C4 counterexample: with one configured credential and persistent
rate-limiting, `translate_text` makes 2 attempts — the loop runs
`range(len(clients) + 1)` iterations, so the claimed bound "attempts ≤
number of configured credentials" fails. -/
theorem translate_text_exceeds_key_count :
    (translate_text "hi" "French" 1 0 (fun _ => TrOutcome.rateLimit)).attempts = 2
    ∧ 1 < 2 :=
  ⟨rfl, by omega⟩

/-- C4 amended: `translate_text` never propagates an error — its result
is the original text or a successful translation; the pass-through
language "English" returns the input with no request; on rate limit it
rotates round-robin `(index + 1) % len(clients)` and retries the same
request; the total attempt count is bounded by the number of configured
credentials **plus one** (the loop runs `len(clients) + 1` iterations);
retries happen only on rate-limit outcomes, so any non-rate-limit error
ends the loop with the original text as fallback. -/
theorem translate_text_spec :
    ∀ (text lang : String) (n idx0 : Nat) (oracle : Nat → TrOutcome),
      ((lang = "English" → translate_text text lang n idx0 oracle = ⟨text, 0, []⟩)
      ∧ (translate_text text lang n idx0 oracle).attempts ≤ n + 1
      ∧ ((translate_text text lang n idx0 oracle).result = text
          ∨ ∃ j, j < (translate_text text lang n idx0 oracle).attempts
              ∧ oracle j = TrOutcome.success (translate_text text lang n idx0 oracle).result)
      ∧ (∀ j, j + 1 < (translate_text text lang n idx0 oracle).attempts →
          oracle j = TrOutcome.rateLimit)
      ∧ (idx0 < n →
          ((translate_text text lang n idx0 oracle).keysUsed ≠ [] →
            (translate_text text lang n idx0 oracle).keysUsed.getD 0 0 = idx0)
          ∧ ∀ j, j + 1 < (translate_text text lang n idx0 oracle).keysUsed.length →
              (translate_text text lang n idx0 oracle).keysUsed.getD (j + 1) 0
                = ((translate_text text lang n idx0 oracle).keysUsed.getD j 0 + 1) % n)) := by
  intro text lang n idx0 oracle
  by_cases hlang : lang = "English"
  · rw [translate_text, if_pos hlang]
    refine ⟨fun _ => rfl, by simp, Or.inl rfl, ?_, ?_⟩
    · intro j hj; simp at hj
    · intro hidx
      refine ⟨fun h => absurd rfl h, ?_⟩
      intro j hj; simp at hj
  · rw [translate_text, if_neg hlang]
    obtain ⟨h1, h2, h3, h4, h5, h6, h7⟩ := translateLoop_spec oracle n text (n + 1) idx0 0
    refine ⟨fun h => absurd h hlang, h1, ?_, ?_, ?_⟩
    · rcases h3 with h | ⟨j, hj, hsucc⟩
      · left; exact h
      · right; exact ⟨j, hj, by simpa using hsucc⟩
    · intro j hj
      have := h4 j hj
      simpa using this
    · intro hidx
      refine ⟨h5, ?_⟩
      intro j hj
      rw [h6 j hj]
      have hkey : (translateLoop oracle n text (n + 1) idx0 0).keysUsed.getD j 0 < n := by
        apply h7 hidx
        rw [List.getD_eq_getElem _ 0 (by omega)]
        exact List.getElem_mem (by omega)
      exact rotate_key_formula hkey

/-- Witness for `translate_text_spec`: the pass-through language returns
its input with zero attempts, and with two credentials under persistent
rate-limiting the second key used is `(first + 1) % 2`. -/
theorem translate_text_spec_witness :
    translate_text "hola" "English" 2 0 (fun _ => TrOutcome.rateLimit) = ⟨"hola", 0, []⟩
    ∧ (translate_text "hola" "French" 2 0 (fun _ => TrOutcome.rateLimit)).keysUsed.getD 1 0
        = ((translate_text "hola" "French" 2 0 (fun _ => TrOutcome.rateLimit)).keysUsed.getD 0 0
            + 1) % 2 :=
  ⟨(translate_text_spec "hola" "English" 2 0 (fun _ => TrOutcome.rateLimit)).1 rfl,
   ((translate_text_spec "hola" "French" 2 0 (fun _ => TrOutcome.rateLimit)).2.2.2.2
      (by decide)).2 0 (by decide)⟩

/-! ## Buffer & segmenter (process_audio, ServerSetup.tsx lines 889-912)

Raw bytes are `List Nat`.  `struct.pack` fields are modelled little
endian byte by byte: `<I` is 4 bytes, `<H` is 2 bytes, `<4s` are the
four ASCII tag bytes. -/

def u16le (n : Nat) : List Nat := [n % 256, n / 256 % 256]

def u32le (n : Nat) : List Nat :=
  [n % 256, n / 256 % 256, n / 65536 % 256, n / 16777216 % 256]

/-- The 44-byte WAV header written at lines 902-904:
`pack('<4sI4s', b'RIFF', 36 + len, b'WAVE')`,
`pack('<4sIHHIIHH', b'fmt ', 16, 1, CHANNELS, SAMPLE_RATE,
SAMPLE_RATE*CHANNELS*SAMPWIDTH, CHANNELS*SAMPWIDTH, SAMPWIDTH*8)`,
`pack('<4sI', b'data', len)`. -/
def wav_header (n : Nat) : List Nat :=
  [82, 73, 70, 70] ++ u32le (36 + n) ++ [87, 65, 86, 69]
    ++ [102, 109, 116, 32] ++ u32le 16 ++ u16le 1 ++ u16le CHANNELS
    ++ u32le SAMPLE_RATE ++ u32le (SAMPLE_RATE * CHANNELS * SAMPWIDTH)
    ++ u16le (CHANNELS * SAMPWIDTH) ++ u16le (SAMPWIDTH * 8)
    ++ [100, 97, 116, 97] ++ u32le n

/-- The file written and immediately read back at lines 901-909:
header plus the entire drained accumulator. -/
def wav_container (payload : List Nat) : List Nat :=
  wav_header payload.length ++ payload

/-- One iteration of the `process_audio` loop body (lines 894-910):
extend the accumulator with the dequeued chunk; once its length reaches
`BUFFER_SIZE`, emit the WAV container of the whole accumulator and reset
the accumulator to empty. -/
def process_chunk (buf chunk : List Nat) : List Nat × Option (List Nat) :=
  if BUFFER_SIZE ≤ (buf ++ chunk).length then
    ([], some (wav_container (buf ++ chunk)))
  else (buf ++ chunk, none)

/-- The `process_audio` loop over a whole queue of chunks: final
accumulator and emitted segments in order. -/
def process_run : List Nat → List (List Nat) → List Nat × List (List Nat)
  | buf, [] => (buf, [])
  | buf, c :: cs =>
    match process_chunk buf c with
    | (b1, none) => process_run b1 cs
    | (b1, some seg) =>
        match process_run b1 cs with
        | (bf, segs) => (bf, seg :: segs)

lemma wav_header_length (n : Nat) : (wav_header n).length = 44 := by
  simp [wav_header, u32le, u16le]

/-- C6: segment emission happens exactly when the accumulator reaches
`BUFFER_SIZE = 16000 * 1 * 2 * 30 = 960000` bytes; the emitted segment
is the WAV container of the entire drained accumulator, whose header
declares RIFF size `36 + n` (bytes 4-7) and data size `n` (bytes 40-43)
for an `n`-byte payload; the accumulator is reset to empty on emission;
and across any run the emitted payloads concatenated with the leftover
accumulator reproduce the input byte stream exactly — no byte is ever
dropped, duplicated, split across an emitted payload boundary it did not
arrive at, or merged twice. -/
theorem process_audio_segmentation :
    BUFFER_SIZE = 960000
    ∧ (∀ buf chunk : List Nat,
        (process_chunk buf chunk).2.isSome = true
          ↔ BUFFER_SIZE ≤ (buf ++ chunk).length)
    ∧ (∀ buf chunk seg : List Nat, (process_chunk buf chunk).2 = some seg →
        seg = wav_header (buf ++ chunk).length ++ (buf ++ chunk)
        ∧ (process_chunk buf chunk).1 = [])
    ∧ (∀ n : Nat, (wav_header n).length = 44
        ∧ ((wav_header n).drop 4).take 4 = u32le (36 + n)
        ∧ (wav_header n).drop 40 = u32le n)
    ∧ (∀ (buf : List Nat) (chunks : List (List Nat)),
        ((process_run buf chunks).2.map (fun s => List.drop 44 s)).flatten
            ++ (process_run buf chunks).1
          = buf ++ chunks.flatten) := by
  refine ⟨rfl, ?_, ?_, ?_, ?_⟩
  · intro buf chunk
    rw [process_chunk]
    split
    · next h => simpa using h
    · next h => simpa using h
  · intro buf chunk seg hseg
    rw [process_chunk] at hseg
    split at hseg
    · next h =>
        refine ⟨?_, by rw [process_chunk, if_pos h]⟩
        have := Option.some.inj hseg
        rw [← this]
        rfl
    · exact Option.noConfusion hseg
  · intro n
    refine ⟨wav_header_length n, ?_, ?_⟩
    · rfl
    · rfl
  · intro buf chunks
    induction chunks generalizing buf with
    | nil => simp [process_run]
    | cons c cs ih =>
        by_cases hle : BUFFER_SIZE ≤ (buf ++ c).length
        · have hpc : process_chunk buf c = ([], some (wav_container (buf ++ c))) := by
            rw [process_chunk, if_pos hle]
          have hstep : process_run buf (c :: cs)
              = ((process_run [] cs).1,
                  wav_container (buf ++ c) :: (process_run [] cs).2) := by
            rw [process_run, hpc]
          rw [hstep]
          simp only [List.map_cons, List.flatten_cons]
          have hdrop : List.drop 44 (wav_container (buf ++ c)) = buf ++ c := by
            rw [wav_container, ← wav_header_length (buf ++ c).length]
            exact List.drop_left _ _
          rw [hdrop, List.append_assoc, ih []]
          simp
        · have hpc : process_chunk buf c = (buf ++ c, none) := by
            rw [process_chunk, if_neg hle]
          have hstep : process_run buf (c :: cs) = process_run (buf ++ c) cs := by
            rw [process_run, hpc]
          rw [hstep, ih (buf ++ c)]
          simp

/-- Witness for `process_audio_segmentation`: a full 960000-byte
accumulator emits the container of exactly those bytes and resets. -/
theorem process_audio_segmentation_witness :
    wav_container (List.replicate BUFFER_SIZE 0 ++ [])
        = wav_header (List.replicate BUFFER_SIZE 0 ++ []).length
            ++ (List.replicate BUFFER_SIZE 0 ++ [])
    ∧ (process_chunk (List.replicate BUFFER_SIZE 0) []).1 = [] := by
  have h : (process_chunk (List.replicate BUFFER_SIZE 0) []).2
      = some (wav_container (List.replicate BUFFER_SIZE 0 ++ [])) := by
    rw [process_chunk, if_pos (by simp)]
  exact process_audio_segmentation.2.2.1 (List.replicate BUFFER_SIZE 0) []
    (wav_container (List.replicate BUFFER_SIZE 0 ++ [])) h

/-! ## Stream supervisor (AudioStreamProcessor, ServerSetup.tsx 765-947)

The processor state collects the instance attributes; the `manager`
history is folded in because `stop_stream`/`start_stream` clear it.
Tasks and the subprocess are `Option Nat` handles.  The queue is
modelled by its contents plus a generation counter bumped every time
`self.audio_queue = asyncio.Queue()` replaces it with a fresh object.
Each awaited side effect is recorded as an event, so the order in which
`start_stream` tears down the old session and establishes the new one is
part of the embedding. -/

structure ProcState where
  is_running : Bool
  current_url : Option String
  current_title : String
  queue_contents : List (List Nat)
  queue_gen : Nat
  ffmpeg_process : Option Nat
  processing_task : Option Nat
  watchdog_task : Option Nat
  start_time : Nat
  last_activity_time : Nat
  history : List HistEntry
deriving DecidableEq

inductive Ev where
  | clear_history
  | kill_ffmpeg
  | await_ffmpeg
  | cancel_processing
  | await_processing
  | cancel_watchdog
  | replace_queue
  | broadcast_meta (title : String)
  | resolve_stream (url : String)
  | set_running
  | set_session_fields
  | launch_ffmpeg
  | launch_processing
  | launch_watchdog
deriving DecidableEq

/-- `stop_stream` (lines 796-826): clear the running flag and history,
kill and await the ffmpeg subprocess if any, cancel and await the
processing task if any, cancel the watchdog task if any, replace the
audio queue with a fresh empty queue, clear url/title, broadcast an
empty title. -/
def stop_stream (s : ProcState) : ProcState × List Ev :=
  ({ is_running := false
     current_url := none
     current_title := ""
     queue_contents := []
     queue_gen := s.queue_gen + 1
     ffmpeg_process := none
     processing_task := none
     watchdog_task := none
     start_time := s.start_time
     last_activity_time := s.last_activity_time
     history := [] },
   [Ev.clear_history]
     ++ (match s.ffmpeg_process with
         | some _ => [Ev.kill_ffmpeg, Ev.await_ffmpeg]
         | none => [])
     ++ (match s.processing_task with
         | some _ => [Ev.cancel_processing, Ev.await_processing]
         | none => [])
     ++ (match s.watchdog_task with
         | some _ => [Ev.cancel_watchdog]
         | none => [])
     ++ [Ev.replace_queue, Ev.broadcast_meta ""])

/-- `start_stream` (lines 828-853): run a full `stop_stream` first, clear
history again, resolve the source; on resolution failure broadcast an
error title and stay stopped; on success set the running flag, the
url/title, the watchdog timers, broadcast the title and launch the
ingest, processing and watchdog tasks.  `resolve` is the outcome of
`get_stream_info` and `now` is `time.time()`. -/
def start_stream (s : ProcState) (url : String)
    (resolve : Option (String × String)) (now : Nat) : ProcState × List Ev :=
  match stop_stream s with
  | (s1, evs) =>
    match resolve with
    | none =>
        (s1, evs ++ [Ev.clear_history, Ev.resolve_stream url,
          Ev.broadcast_meta "⚠️ SYSTEM ERROR: INVALID SPACE URL ⚠️"])
    | some (_, title) =>
        ({ s1 with
            is_running := true
            current_url := some url
            current_title := title
            start_time := now
            last_activity_time := now
            processing_task := some (s1.queue_gen)
            watchdog_task := some (s1.queue_gen) },
         evs ++ [Ev.clear_history, Ev.resolve_stream url, Ev.set_running,
           Ev.set_session_fields, Ev.broadcast_meta title, Ev.launch_ffmpeg,
           Ev.launch_processing, Ev.launch_watchdog])

/-- Teardown events named by C1: kill/await ffmpeg, cancel/await the
processing task, cancel the watchdog, replace the queue. -/
def isTeardownEv : Ev → Bool
  | Ev.kill_ffmpeg => true
  | Ev.await_ffmpeg => true
  | Ev.cancel_processing => true
  | Ev.await_processing => true
  | Ev.cancel_watchdog => true
  | Ev.replace_queue => true
  | _ => false

/-- Events establishing state of the new session. -/
def isEstablishEv : Ev → Bool
  | Ev.set_running => true
  | Ev.set_session_fields => true
  | Ev.launch_ffmpeg => true
  | Ev.launch_processing => true
  | Ev.launch_watchdog => true
  | _ => false

/-- C1: `start_stream` performs the full `stop_stream` event sequence
first — after which the prior session is fully stopped: running flag
down, ffmpeg killed, processing and watchdog tasks gone, queue replaced
by a fresh empty one (new generation) — and only the suffix after that
complete teardown contains any event establishing new-session state.
The state has a single `is_running` flag, so at most one session is
running at any instant, and the previous one is always fully stopped
before the new one starts (last write wins). -/
theorem start_stream_stops_previous_first :
    ∀ (s : ProcState) (url : String) (resolve : Option (String × String))
      (now : Nat),
      ∃ t : List Ev,
        (start_stream s url resolve now).2 = (stop_stream s).2 ++ t
        ∧ (∀ e ∈ t, isTeardownEv e = false)
        ∧ (∀ e ∈ (stop_stream s).2, isEstablishEv e = false)
        ∧ (stop_stream s).1.is_running = false
        ∧ (stop_stream s).1.ffmpeg_process = none
        ∧ (stop_stream s).1.processing_task = none
        ∧ (stop_stream s).1.watchdog_task = none
        ∧ (stop_stream s).1.queue_contents = []
        ∧ (stop_stream s).1.queue_gen = s.queue_gen + 1 := by
  intro s url resolve now
  have hstopev : ∀ e ∈ (stop_stream s).2, isEstablishEv e = false := by
    intro e he
    show isEstablishEv e = false
    rcases s with ⟨r, u, ti, qc, qg, ff, pt, wt, st, la, hi⟩
    rcases ff with _ | f <;> rcases pt with _ | p <;> rcases wt with _ | w <;>
      simp only [stop_stream] at he <;> fin_cases he <;> rfl
  rcases hres : resolve with _ | ⟨su, title⟩
  · refine ⟨[Ev.clear_history, Ev.resolve_stream url,
      Ev.broadcast_meta "⚠️ SYSTEM ERROR: INVALID SPACE URL ⚠️"], ?_, ?_, hstopev,
      rfl, rfl, rfl, rfl, rfl, rfl⟩
    · show (start_stream s url none now).2 = _
      rw [start_stream]
    · intro e he
      fin_cases he <;> rfl
  · refine ⟨[Ev.clear_history, Ev.resolve_stream url, Ev.set_running,
      Ev.set_session_fields, Ev.broadcast_meta title, Ev.launch_ffmpeg,
      Ev.launch_processing, Ev.launch_watchdog], ?_, ?_, hstopev,
      rfl, rfl, rfl, rfl, rfl, rfl⟩
    · show (start_stream s url (some (su, title)) now).2 = _
      rw [start_stream]
    · intro e he
      fin_cases he <;> rfl

/-- A concrete idle processor state, as built by `__init__`
(lines 766-777). -/
def procStateIdle : ProcState :=
  ⟨false, none, "", [], 0, none, none, none, 0, 0, []⟩

/-- Witness for `start_stream_stops_previous_first` at the initial
state and a failing resolution. -/
theorem start_stream_stops_previous_first_witness :
    ∃ t : List Ev,
      (start_stream procStateIdle "u" none 0).2 = (stop_stream procStateIdle).2 ++ t
      ∧ (∀ e ∈ t, isTeardownEv e = false)
      ∧ (∀ e ∈ (stop_stream procStateIdle).2, isEstablishEv e = false)
      ∧ (stop_stream procStateIdle).1.is_running = false
      ∧ (stop_stream procStateIdle).1.ffmpeg_process = none
      ∧ (stop_stream procStateIdle).1.processing_task = none
      ∧ (stop_stream procStateIdle).1.watchdog_task = none
      ∧ (stop_stream procStateIdle).1.queue_contents = []
      ∧ (stop_stream procStateIdle).1.queue_gen = procStateIdle.queue_gen + 1 :=
  start_stream_stops_previous_first procStateIdle "u" none 0

/-! ## Watchdog and activity tracking (C5, lines 855-887 and 921-925) -/

/-- The two trip rules checked by one `watchdog_loop` iteration
(lines 860-872): max broadcast duration exceeded, or silence — no
activity for longer than `SILENCE_TIMEOUT`.  Either forces a full
`stop_stream`. -/
def watchdog_check (now st la : Nat) : Bool :=
  decide (MAX_BROADCAST_DURATION < now - st) || decide (SILENCE_TIMEOUT < now - la)

/-- One `watchdog_loop` iteration after its one-minute sleep: check the
rules at the wake-up instant and stop the stream if either trips. -/
def watchdog_step (s : ProcState) (now : Nat) : ProcState :=
  if s.is_running = true
      ∧ watchdog_check now s.start_time s.last_activity_time = true then
    (stop_stream s).1
  else s

/-- One iteration of the `run_ffmpeg` read loop (lines 880-885): a
non-empty chunk is enqueued and refreshes `last_activity_time`; an empty
read ends ingest and changes nothing. -/
def ffmpeg_read_step (s : ProcState) (chunk : List Nat) (now : Nat) : ProcState :=
  if chunk = [] then s
  else { s with
    queue_contents := s.queue_contents ++ [chunk]
    last_activity_time := now }

/-- The activity refresh in `transcribe_and_distribute` (lines 921-925):
a stripped transcript that is non-empty and longer than 5 characters
refreshes `last_activity_time`. -/
def transcript_activity_step (s : ProcState) (text : String) (now : Nat) :
    ProcState :=
  if text ≠ "" ∧ 5 < text.length then { s with last_activity_time := now }
  else s

/-- C5: for a running session whose watchdog polls every 60 seconds from
`t0` (checks at `t0 + 60 * (k + 1)`), if the last activity time is never
refreshed, then some poll both trips the watchdog — performing the full
stop — and happens no later than 60 seconds after the silence ceiling
`last_activity_time + SILENCE_TIMEOUT` is crossed.  Moreover the same
`last_activity_time` field is refreshed both when ingest reads a
non-empty chunk and when a transcription passes the length filter, so
either form of activity postpones the silence trip. -/
theorem watchdog_silence_stop :
    ∀ (s : ProcState) (t0 : Nat),
      (s.is_running = true → t0 ≤ s.last_activity_time + SILENCE_TIMEOUT →
        ∃ k : Nat,
          watchdog_check (t0 + 60 * (k + 1)) s.start_time s.last_activity_time = true
          ∧ watchdog_step s (t0 + 60 * (k + 1)) = (stop_stream s).1
          ∧ t0 + 60 * (k + 1) ≤ s.last_activity_time + SILENCE_TIMEOUT + 60)
      ∧ (∀ (chunk : List Nat) (now : Nat), chunk ≠ [] →
          (ffmpeg_read_step s chunk now).last_activity_time = now)
      ∧ (∀ (text : String) (now : Nat), text ≠ "" → 5 < text.length →
          (transcript_activity_step s text now).last_activity_time = now) := by
  intro s t0
  refine ⟨?_, ?_, ?_⟩
  · intro hrun hle
    set c := s.last_activity_time + SILENCE_TIMEOUT with hc
    refine ⟨(c - t0) / 60, ?_, ?_, ?_⟩
    · have hdm := Nat.div_add_mod (c - t0) 60
      have hmod : (c - t0) % 60 < 60 := Nat.mod_lt _ (by norm_num)
      rw [watchdog_check]
      apply Bool.or_eq_true_iff.mpr
      right
      apply decide_eq_true
      omega
    · rw [watchdog_step]
      rw [if_pos]
      constructor
      · exact hrun
      · have hdm := Nat.div_add_mod (c - t0) 60
        have hmod : (c - t0) % 60 < 60 := Nat.mod_lt _ (by norm_num)
        rw [watchdog_check]
        apply Bool.or_eq_true_iff.mpr
        right
        apply decide_eq_true
        omega
    · have hdm := Nat.div_add_mod (c - t0) 60
      have hmod : (c - t0) % 60 < 60 := Nat.mod_lt _ (by norm_num)
      omega
  · intro chunk now hchunk
    rw [ffmpeg_read_step, if_neg hchunk]
  · intro text now hne hlen
    rw [transcript_activity_step, if_pos ⟨hne, hlen⟩]

/-- A concrete running processor state for the watchdog witness. -/
def procStateRunning : ProcState :=
  ⟨true, some "u", "t", [], 1, some 0, some 1, some 1, 0, 0, []⟩

/-- Witness for `watchdog_silence_stop` at a concrete running state. -/
theorem watchdog_silence_stop_witness :
    (∃ k : Nat,
        watchdog_check (0 + 60 * (k + 1)) procStateRunning.start_time
            procStateRunning.last_activity_time = true
        ∧ watchdog_step procStateRunning (0 + 60 * (k + 1))
            = (stop_stream procStateRunning).1
        ∧ 0 + 60 * (k + 1)
            ≤ procStateRunning.last_activity_time + SILENCE_TIMEOUT + 60)
    ∧ (ffmpeg_read_step procStateRunning [1] 7).last_activity_time = 7
    ∧ (transcript_activity_step procStateRunning "hello world" 9).last_activity_time = 9 :=
  ⟨(watchdog_silence_stop procStateRunning 0).1 rfl (by decide),
   (watchdog_silence_stop procStateRunning 0).2.1 [1] 7 (by decide),
   (watchdog_silence_stop procStateRunning 0).2.2 "hello world" 9 (by decide) (by decide)⟩

end XSpace
